import Mathlib

/-!
# Verification of the skill-extraction core

A shallow embedding of the pure string-processing core of the
`pr-skills-extractor` repository:

* `SkillManager` (`src/scripts/utils/skill-manager.js`): name normalization
  (`normalizeSkillName`, `convertToGerundForm`), keyword-overlap similarity
  (`calculateSimilarity`, `findSimilarSkills`) and merging (`mergeSkills`);
* `SkillValidator` (frontmatter parser `parseSkillContent` and the rule
  battery `validateFrontmatter` / `validateContent` / `validateStructure` /
  `validateConciseness` behind `validateSkill`);
* `SkillGenerator` (`src/scripts/generate-skill.js`, the validator-aware
  version): document rendering (`buildSkillContent`) and the progressive
  disclosure splitter (`applyProgressiveDisclosure`).

Strings are modelled as `List Char` (`Str`).  JavaScript regular-expression
predicates are translated into explicit scanning functions; the character
classes `\w` and `\s` are modelled over ASCII (the repository only ever
feeds ASCII markdown through these functions).  File-system and network
plumbing is out of scope: functions that in the source read files take the
file content as an argument instead.
-/

namespace PRSkills

/-- Strings are lists of characters. -/
abbrev Str := List Char

/-! ## JavaScript character classes (ASCII model) -/

/-- JS `\w`: `[A-Za-z0-9_]`.  Note that this INCLUDES the underscore. -/
def isWordChar (c : Char) : Bool :=
  ('a' ≤ c && c ≤ 'z') || ('A' ≤ c && c ≤ 'Z') || ('0' ≤ c && c ≤ '9') || c == '_'

/-- JS `\s` restricted to ASCII: space, tab, newline, carriage return,
vertical tab, form feed. -/
def isJsSpace (c : Char) : Bool :=
  c == ' ' || c == '\t' || c == '\n' || c == '\r' || c == '\x0b' || c == '\x0c'

/-- ASCII letter, for the Windows-path pattern `[a-zA-Z]`. -/
def isAsciiAlpha (c : Char) : Bool :=
  ('a' ≤ c && c ≤ 'z') || ('A' ≤ c && c ≤ 'Z')

/-- ASCII digit, for `\d`. -/
def isAsciiDigit (c : Char) : Bool := '0' ≤ c && c ≤ '9'

/-- `String.prototype.toLowerCase` (ASCII model, matching `Char.toLower`). -/
def toLowerStr (s : Str) : Str := s.map Char.toLower

/-- `String.prototype.toUpperCase` (ASCII model). -/
def toUpperStr (s : Str) : Str := s.map Char.toUpper

/-- `String.prototype.trim`: strip `\s` from both ends. -/
def trimStr (s : Str) : Str :=
  ((s.dropWhile isJsSpace).reverse.dropWhile isJsSpace).reverse

/-- JS `a || b` on strings: `b` when `a` is empty (falsy), else `a`. -/
def orElse (a b : Str) : Str := if a.isEmpty then b else a

/-- `content.split('\n').length`: one more than the number of newlines. -/
def jsLines (s : Str) : Nat := s.count '\n' + 1

/-- Replace every maximal run of characters satisfying `p` by the single
character `r` (the JS global replace `/X+/g → r`).  The flag records whether
the previous character was part of a run. -/
def squashRuns (p : Char → Bool) (r : Char) : Bool → Str → Str
  | _, [] => []
  | inRun, c :: cs =>
    if p c then
      if inRun then squashRuns p r true cs else r :: squashRuns p r true cs
    else c :: squashRuns p r false cs

/-- First index at which `pat` occurs in `s` (leftmost match of a literal). -/
def findInfixIdx (pat : Str) : Str → Option Nat
  | [] => if pat.isPrefixOf ([] : Str) then some 0 else none
  | c :: t =>
    if pat.isPrefixOf (c :: t) then some 0 else (findInfixIdx pat t).map (· + 1)

/-- `a.includes(b)` for strings. -/
def containsSub (s pat : Str) : Bool := (findInfixIdx pat s).isSome

/-! ## SkillManager: name normalization (skill-manager.js lines 196–251) -/

/-- `.replace(/[^\w\s-]/g, '')`: keep only word characters, whitespace and
hyphens. -/
def stripNonWord (s : Str) : Str :=
  s.filter (fun c => isWordChar c || isJsSpace c || c == '-')

/-- `.replace(/\s+/g, '-')`. -/
def spacesToHyphens (s : Str) : Str := squashRuns isJsSpace '-' false s

/-- Collapse hyphen runs: the global replace of `-+` by `-`. -/
def collapseHyphens (s : Str) : Str := squashRuns (· == '-') '-' false s

/-- The global replace of `^-` and `-$` by nothing: drop one leading and one
trailing hyphen. -/
def trimEdgeHyphens (s : Str) : Str :=
  let s1 := match s with
    | '-' :: t => t
    | _ => s
  match s1.getLast? with
  | some '-' => s1.dropLast
  | _ => s1

/-- The replace of a final `-$` by nothing, applied after truncation. -/
def removeTrailingHyphen (s : Str) : Str :=
  match s.getLast? with
  | some '-' => s.dropLast
  | _ => s

/-- The verb → gerund lookup table of `convertToGerundForm`, in source
(insertion) order. -/
def verbMappings : List (Str × Str) :=
  [ ("avoid".toList, "avoiding".toList)
  , ("prefer".toList, "preferring".toList)
  , ("use".toList, "using".toList)
  , ("implement".toList, "implementing".toList)
  , ("handle".toList, "handling".toList)
  , ("manage".toList, "managing".toList)
  , ("process".toList, "processing".toList)
  , ("validate".toList, "validating".toList)
  , ("check".toList, "checking".toList)
  , ("test".toList, "testing".toList)
  , ("create".toList, "creating".toList)
  , ("update".toList, "updating".toList)
  , ("delete".toList, "deleting".toList)
  , ("remove".toList, "removing".toList)
  , ("add".toList, "adding".toList)
  , ("fix".toList, "fixing".toList)
  , ("optimize".toList, "optimizing".toList)
  , ("refactor".toList, "refactoring".toList)
  , ("extract".toList, "extracting".toList)
  , ("configure".toList, "configuring".toList)
  , ("setup".toList, "setting-up".toList)
  , ("initialize".toList, "initializing".toList) ]

/-- `convertToGerundForm`: the first table entry whose `verb + '-'` is a
prefix of the name rewrites that leading segment to `gerund + '-'`
(`name.replace(verb + '-', gerund + '-')` replaces the first occurrence,
which by the `startsWith` guard is the leading segment); otherwise the name
passes through unchanged. -/
def convertToGerundForm (name : Str) : Str :=
  match verbMappings.find? (fun p => (p.1 ++ ['-']).isPrefixOf name) with
  | some p => p.2 ++ '-' :: name.drop (p.1.length + 1)
  | none => name

/-- `normalizeSkillName`: lowercase, strip `[^\w\s-]`, whitespace runs to
hyphens, collapse hyphen runs, trim edge hyphens, gerund conversion, then
truncate to 64 characters removing a trailing hyphen left by truncation. -/
def normalizeSkillName (name : Str) : Str :=
  let n := trimEdgeHyphens (collapseHyphens (spacesToHyphens (stripNonWord (toLowerStr name))))
  let n2 := convertToGerundForm n
  if 64 < n2.length then removeTrailingHyphen (n2.take 64) else n2

/-! ## Data model -/

/-- Attribution metadata.  JS objects use `undefined` for absent fields; all
uses here go through truthiness checks for which `undefined` and `''` agree,
so absent fields are modelled as the empty string. -/
structure SourceInfo where
  pr : Str := []
  author : Str := []
  date : Str := []
  file : Str := []
deriving DecidableEq

/-- A skill record, covering the fields the embedded functions read.
Absent / empty JS fields are the empty string (resp. empty list). -/
structure Skill where
  name : Str := []
  title : Str := []
  description : Str := []
  instructions : Str := []
  keywords : List Str := []
  category : Str := []
  domain : Str := []
  skillName : Str := []
  antiPattern : Str := []
  bestPractice : Str := []
  badExample : Str := []
  goodExample : Str := []
  path : Str := []
  source : SourceInfo := {}
  sources : List SourceInfo := []
deriving DecidableEq

/-! ## SkillManager: similarity (skill-manager.js lines 36–67) -/

/-- `` `${title} ${description} ${keywords?.join(' ') || ''}` ``. -/
def textOf (s : Skill) : Str :=
  s.title ++ ' ' :: s.description ++ ' ' :: List.intercalate [' '] s.keywords

/-- Split on `/\s+/`, accumulating the current word.  (`split(/\s+/)` can
produce one leading empty token, which the `length > 3` filter discards, so
empty tokens are omitted here directly.) -/
def tokensAux : Str → Str → List Str
  | [], acc => if acc.isEmpty then [] else [acc.reverse]
  | c :: cs, acc =>
    if isJsSpace c then
      if acc.isEmpty then tokensAux cs [] else acc.reverse :: tokensAux cs []
    else tokensAux cs (c :: acc)

/-- The whitespace-separated tokens of a string. -/
def tokensWs (s : Str) : List Str := tokensAux s []

/-- The set of significant words of a skill: lowercase whitespace-separated
tokens of `textOf` longer than 3 characters (a JS `Set`). -/
def wordsOf (s : Skill) : Finset Str :=
  ((tokensWs (toLowerStr (textOf s))).filter (fun w => 3 < w.length)).toFinset

/-- `calculateSimilarity`: Jaccard overlap of the significant-word sets,
`0` when the union is empty.  The quotient `intersection.size / union.size`
is the rational `mkRat` (kernel-computable; equal to division in `ℚ`). -/
def calculateSimilarity (skill1 skill2 : Skill) : ℚ :=
  let words1 := wordsOf skill1
  let words2 := wordsOf skill2
  let inter := words1 ∩ words2
  let union := words1 ∪ words2
  if union.card = 0 then 0 else mkRat inter.card union.card

/-- `this.similarityThreshold = 0.8`, as the rational `8/10`. -/
def similarityThreshold : ℚ := mkRat 8 10

/-- The descending-score comparison used by
`.sort((a, b) => b.similarity - a.similarity)`. -/
def simRel (a b : Skill × ℚ) : Prop := b.2 ≤ a.2

instance : DecidableRel simRel := fun a b => inferInstanceAs (Decidable (b.2 ≤ a.2))

instance : IsTotal (Skill × ℚ) simRel := ⟨fun a b => le_total b.2 a.2⟩

instance : IsTrans (Skill × ℚ) simRel := ⟨fun _ _ _ h1 h2 => le_trans h2 h1⟩

/-- `findSimilarSkills`: keep the corpus entries whose similarity reaches the
threshold `0.8`, paired with their score, sorted by descending score (a
stable sort, as JS `Array.prototype.sort` is).  The corpus that the source
reads from disk via `getAllSkills` is passed explicitly. -/
def findSimilarSkills (newSkill : Skill) (existingSkills : List Skill) : List (Skill × ℚ) :=
  let similar := existingSkills.filterMap (fun existing =>
    let similarity := calculateSimilarity newSkill existing
    if similarityThreshold ≤ similarity then some (existing, similarity) else none)
  similar.insertionSort simRel

/-! ## SkillManager: merge (skill-manager.js lines 160–189) -/

/-- `filter((v, i, a) => a.indexOf(v) === i)`: keep each element only at its
first occurrence (elements already `seen` are dropped). -/
def dedupAux : List Str → List Str → List Str
  | _, [] => []
  | seen, x :: xs =>
    if seen.contains x then dedupAux seen xs else x :: dedupAux (x :: seen) xs

/-- Keep first occurrences. -/
def dedupKeepFirst (l : List Str) : List Str := dedupAux [] l

/-- `mergeSkills`: spread of the existing skill overriding description,
instructions, keywords and sources; the new entry appended to `sources` is
rebuilt from the incoming skill's `source` fields. -/
def mergeSkills (existingSkill newSkill : Skill) : Skill :=
  { existingSkill with
    description :=
      if newSkill.description.isEmpty then existingSkill.description
      else newSkill.description
    instructions :=
      existingSkill.instructions ++ "\n\n---\n\n".toList ++ newSkill.instructions
    keywords := dedupKeepFirst (existingSkill.keywords ++ newSkill.keywords)
    sources := existingSkill.sources ++
      [{ pr := newSkill.source.pr
         author := newSkill.source.author
         date := newSkill.source.date
         file := newSkill.source.file }] }

/-! ## Regex scanning infrastructure

JS regex tests are modelled as explicit scanners.  A matcher `f : Str → Bool`
decides a match anchored at the start of a suffix; `existsPos` tries every
suffix (every start position), as an unanchored `.test` does. -/

/-- Does `f` match at some start position of `s`? -/
def existsPos (f : Str → Bool) : Str → Bool
  | [] => f []
  | c :: t => f (c :: t) || existsPos f t

/-- Eat a literal, returning the remaining suffix. -/
def eatL (w : Str) (s : Str) : Option Str :=
  if w.isPrefixOf s then some (s.drop w.length) else none

/-- Eat an optional single character (`c?`). -/
def eatOpt (c : Char) (s : Str) : Str :=
  match s with
  | d :: t => if d == c then t else s
  | [] => s

/-- Eat one alternative from a group `(w₁|w₂|…)`, leftmost first. -/
def eatAltL (ws : List Str) (s : Str) : Option Str :=
  match ws.find? (fun w => w.isPrefixOf s) with
  | some w => some (s.drop w.length)
  | none => none

/-- Eat `\s*` (greedy). -/
def eatWs (s : Str) : Str := s.dropWhile isJsSpace

/-- Eat `\s+` (at least one whitespace character, then greedy). -/
def eatWs1 (s : Str) : Option Str :=
  match s with
  | c :: t => if isJsSpace c then some (t.dropWhile isJsSpace) else none
  | [] => none

/-- A word boundary `\b` holds before the current position when the previous
character (if any) is not a word character (our patterns start with word
characters). -/
def boundaryOk : Option Char → Bool
  | none => true
  | some c => !(isWordChar c)

/-- A word boundary `\b` holds after a pattern ending in a word character
when the next character (if any) is not a word character. -/
def endBoundaryOk : Str → Bool
  | [] => true
  | c :: _ => !(isWordChar c)

/-- `\b<literal>\b` anchored at the start of `s` (literal ends in a word
character; the leading boundary is checked by the caller). -/
def phraseAt (pat : Str) (s : Str) : Bool :=
  pat.isPrefixOf s && endBoundaryOk (s.drop pat.length)

/-- Scan for `\b<literal>\b`, carrying the previous character for the
leading boundary. -/
def phraseScan (pat : Str) : Option Char → Str → Bool
  | _, [] => false
  | prev, c :: t => (boundaryOk prev && phraseAt pat (c :: t)) || phraseScan pat (some c) t

/-- Case-insensitive `\b<literal>\b` test (the literal is given lowercase). -/
def hasPhraseCI (pat : String) (s : Str) : Bool :=
  phraseScan pat.toList none (toLowerStr s)

/-- `\b<w1>\s+(alt₁|alt₂|…)\b` anchored at the start of `s` (lowercased). -/
def gapAltAt (w1 : Str) (alts : List Str) (s : Str) : Bool :=
  match eatL w1 s with
  | some rest =>
    match eatWs1 rest with
    | some r2 =>
      (match eatAltL alts r2 with
       | some r3 => endBoundaryOk r3
       | none => false)
    | none => false
  | none => false

/-- Scan for `\b<w1>\s+(alt₁|…)\b`. -/
def gapAltScan (w1 : Str) (alts : List Str) : Option Char → Str → Bool
  | _, [] => false
  | prev, c :: t => (boundaryOk prev && gapAltAt w1 alts (c :: t)) || gapAltScan w1 alts (some c) t

/-! ## SkillValidator: frontmatter parsing (part_000 lines 52–68) -/

/-- The body of the leading frontmatter block: `content` must start with
`---\n`, and the block runs to the first later `\n---` (the non-greedy
regex `^---\n([\s\S]*?)\n---`). -/
def frontmatterOf (content : Str) : Option Str :=
  if ("---\n".toList).isPrefixOf content then
    (findInfixIdx ("\n---".toList) (content.drop 4)).map (fun i => (content.drop 4).take i)
  else none

/-- Scanner for `^key:\s*(.+)$` with the `m` flag: walk the string one
character at a time, testing the pattern only at line starts (`atStart`).
A match needs at least one non-newline character after the key (`\s*` may
span newlines, so the captured value is the rest of the line holding the
first non-whitespace character after the key, or a lone whitespace
character when everything after the key is whitespace — `trim` turns that
case into the empty string). -/
def findFieldAux (key : Str) : Bool → Str → Option Str
  | atStart, s =>
    if atStart && key.isPrefixOf s && (s.drop key.length).any (· != '\n') then
      some (trimStr (((s.drop key.length).dropWhile isJsSpace).takeWhile (· != '\n')))
    else
      match s with
      | [] => none
      | c :: t => findFieldAux key (c == '\n') t

/-- Field extraction `^key:\s*(.+)$` (value of the first matching line,
trimmed). -/
def findField (key : Str) (s : Str) : Option Str := findFieldAux key true s

/-- The result of `parseSkillContent`. -/
structure ParsedDoc where
  frontmatter : Str
  body : Str
  name : Str
  description : Str
  lines : Nat
deriving DecidableEq

/-- `parseSkillContent`: split off the frontmatter, extract `name` and
`description` (empty when absent), and count lines. -/
def parseSkillContent (content : Str) : ParsedDoc :=
  let fmOpt := frontmatterOf content
  let fm := fmOpt.getD []
  { frontmatter := fm
    body :=
      match fmOpt with
      | some f => (content.drop (4 + f.length + 4)).dropWhile (· == '\n')
      | none => content
    name := (findField ("name:".toList) fm).getD []
    description := (findField ("description:".toList) fm).getD []
    lines := jsLines content }

/-! ## SkillValidator: the rule battery (part_000 lines 73–303) -/

/-- Issue severities. -/
inductive Severity
  | error
  | warning
  | info
deriving DecidableEq

/-- A validation issue. -/
structure Issue where
  severity : Severity
  code : String
  message : String
  fix : String
deriving DecidableEq

/-- The validator's reserved name substrings. -/
def reservedWords : List Str := ["anthropic".toList, "claude".toList]

/-- `/^[a-z0-9-]+$/.test(name)`. -/
def nameCharsetOk (name : Str) : Bool :=
  !name.isEmpty && name.all (fun c => ('a' ≤ c && c ≤ 'z') || ('0' ≤ c && c ≤ '9') || c == '-')

/-- `isGerundForm`: the first hyphen-separated word ends in `ing`, or the
name starts with a whitelisted multi-word gerund. -/
def isGerundForm (name : Str) : Bool :=
  ("ing".toList).isSuffixOf (name.takeWhile (· != '-'))
  || ["setting-up".toList, "working-with".toList].any (fun g => g.isPrefixOf name)

/-- A tag-like substring `<[^>]+>`. -/
def hasXmlTag : Str → Bool
  | [] => false
  | '<' :: rest =>
    (let inner := rest.takeWhile (· != '>')
     !inner.isEmpty && inner.length < rest.length) || hasXmlTag rest
  | _ :: rest => hasXmlTag rest

/-- The validator's `hasWhenToUse` (five case-insensitive patterns, the
alternation groups expanded into literal phrases). -/
def hasWhenToUseV (text : Str) : Bool :=
  hasPhraseCI "use when" text || hasPhraseCI "use for" text
  || hasPhraseCI "when working" text || hasPhraseCI "when dealing" text
  || hasPhraseCI "when processing" text || hasPhraseCI "when handling" text
  || hasPhraseCI "for working" text || hasPhraseCI "for dealing" text
  || hasPhraseCI "for processing" text || hasPhraseCI "for handling" text
  || hasPhraseCI "if the user" text || hasPhraseCI "if you need" text
  || hasPhraseCI "if working" text

/-- `isFirstOrSecondPerson` (four case-insensitive patterns). -/
def isFirstOrSecondPerson (text : Str) : Bool :=
  let lc := toLowerStr text
  gapAltScan ("i".toList)
    ["can".toList, "will".toList, "help".toList, "am".toList, "have".toList] none lc
  || gapAltScan ("you".toList)
    ["can".toList, "will".toList, "should".toList, "could".toList, "may".toList,
     "might".toList, "are".toList, "have".toList] none lc
  || gapAltScan ("we".toList)
    ["can".toList, "will".toList, "should".toList, "are".toList, "have".toList] none lc
  || phraseScan ("help you".toList) none lc
  || phraseScan ("helps you".toList) none lc

/-- `validateFrontmatter` (the `frontmatter` argument is unused in the
source as well). -/
def validateFrontmatter (_frontmatter name description : Str) : List Issue :=
  (if name.isEmpty then
    [⟨.error, "MISSING_NAME", "Skill must have a name field in frontmatter",
      "Add \"name: your-skill-name\" to the YAML frontmatter"⟩]
  else
    (if 64 < name.length then
      [⟨.error, "NAME_TOO_LONG",
        "Name exceeds 64 characters (" ++ toString name.length ++ ")",
        "Shorten the name to 64 characters or less"⟩]
    else [])
    ++ (if !(nameCharsetOk name) then
      [⟨.error, "INVALID_NAME_FORMAT",
        "Name must contain only lowercase letters, numbers, and hyphens",
        "Use kebab-case with lowercase letters: \"my-skill-name\""⟩]
    else [])
    ++ (if reservedWords.any (fun w => containsSub name w) then
      [⟨.error, "RESERVED_WORD",
        "Name contains reserved word: " ++
          String.mk ((reservedWords.find? (fun w => containsSub name w)).getD []),
        "Remove \"anthropic\" or \"claude\" from the skill name"⟩]
    else [])
    ++ (if !(isGerundForm name) then
      [⟨.warning, "NON_GERUND_NAME",
        "Skill name should use gerund form (verb + -ing)",
        "Rename to gerund form: e.g., \"avoiding-x\" instead of \"avoid-x\""⟩]
    else []))
  ++ (if description.isEmpty then
    [⟨.error, "MISSING_DESCRIPTION", "Skill must have a description field in frontmatter",
      "Add \"description: Your skill description\" to the YAML frontmatter"⟩]
  else
    (if 1024 < description.length then
      [⟨.error, "DESCRIPTION_TOO_LONG",
        "Description exceeds 1024 characters (" ++ toString description.length ++ ")",
        "Shorten the description to 1024 characters or less"⟩]
    else [])
    ++ (if hasXmlTag description then
      [⟨.error, "XML_IN_DESCRIPTION", "Description cannot contain XML tags",
        "Remove any XML/HTML tags from the description"⟩]
    else [])
    ++ (if isFirstOrSecondPerson description then
      [⟨.warning, "NON_THIRD_PERSON", "Description should be written in third person",
        "Rewrite to third person: \"Processes files...\" not \"I process files...\" or \"You can process...\""⟩]
    else [])
    ++ (if !(hasWhenToUseV description) then
      [⟨.warning, "MISSING_WHEN_TO_USE", "Description should include when to use the skill",
        "Add context: \"...Use when working with X\" or \"Use for Y scenarios\""⟩]
    else []))

/-- `(before|after|starting|until) \w+ \d{4}` tail: a word run, a space,
four digits. -/
def fourDigitsAt : Str → Bool
  | a :: b :: c :: d :: _ => isAsciiDigit a && isAsciiDigit b && isAsciiDigit c && isAsciiDigit d
  | _ => false

/-- `<kw> \w+ \d{4}` anchored at the start of a lowercased suffix (`kw`
carries its trailing space). -/
def timePhraseAt (kw : Str) (s : Str) : Bool :=
  match eatL kw s with
  | some rest =>
    let w := rest.takeWhile isWordChar
    !w.isEmpty &&
      (match rest.drop w.length with
       | ' ' :: ds => fourDigitsAt ds
       | _ => false)
  | none => false

/-- `as of \d{4}` anchored at the start of a lowercased suffix. -/
def asOfAt (s : Str) : Bool :=
  match eatL ("as of ".toList) s with
  | some rest => fourDigitsAt rest
  | none => false

/-- Any of the five case-insensitive time-sensitive patterns (the source
loop breaks after the first hit, producing a single issue). -/
def hasTimeSensitive (content : Str) : Bool :=
  let lc := toLowerStr content
  existsPos (timePhraseAt ("before ".toList)) lc
  || existsPos (timePhraseAt ("after ".toList)) lc
  || existsPos (timePhraseAt ("starting ".toList)) lc
  || existsPos (timePhraseAt ("until ".toList)) lc
  || existsPos asOfAt lc

/-- `[a-zA-Z]:\\` or `\\[a-zA-Z]+\\` anchored at a suffix (case-sensitive). -/
def winPathAt (s : Str) : Bool :=
  (match s with
   | a :: ':' :: '\\' :: _ => isAsciiAlpha a
   | _ => false)
  || (match s with
      | '\\' :: rest =>
        let r := rest.takeWhile isAsciiAlpha
        !r.isEmpty && (match rest.drop r.length with
          | '\\' :: _ => true
          | _ => false)
      | _ => false)

/-- The Windows-style path test. -/
def hasWindowsPath (content : Str) : Bool := existsPos winPathAt content

/-- `validateContent`. -/
def validateContent (content : Str) (parsed : ParsedDoc) : List Issue :=
  (if 500 < parsed.lines then
    [⟨.warning, "TOO_MANY_LINES",
      "Skill exceeds recommended 500 lines (" ++ toString parsed.lines ++ ")",
      "Split content into separate reference files using progressive disclosure"⟩]
  else [])
  ++ (if hasTimeSensitive content then
    [⟨.warning, "TIME_SENSITIVE_INFO", "Content contains time-sensitive information",
      "Move time-sensitive info to an \"old patterns\" section or remove it"⟩]
  else [])
  ++ (if hasWindowsPath content then
    [⟨.warning, "WINDOWS_PATHS", "Content contains Windows-style paths",
      "Use forward slashes for cross-platform compatibility"⟩]
  else [])

/-- One `See [..](..)` reference link (`/See \[.*?\]\(.*?\)/` with `.`
excluding newlines): the first `](` after `See [` closes the label, a `)`
before any newline closes the path.  Returns the matched substring and its
length.  (If the leftmost `](` attempt fails, later `](` positions cannot
succeed either, since the failure is caused by a newline or by the absence
of a closing parenthesis further right.) -/
def matchSeeRef (s : Str) : Option (Str × Nat) :=
  if ("See [".toList).isPrefixOf s then
    match findInfixIdx ("](".toList) (s.drop 5) with
    | some i =>
      if ((s.drop 5).take i).all (· != '\n') then
        let r2 := (s.drop 5).drop (i + 2)
        let t2 := r2.takeWhile (fun c => c != ')' && c != '\n')
        match r2.drop t2.length with
        | ')' :: _ =>
          some ("See [".toList ++ (s.drop 5).take i ++ ']' :: '(' :: t2 ++ [')'],
            5 + i + 2 + t2.length + 1)
        | _ => none
      else none
    | none => none
  else none

/-- All `See [..](..)` matches of the global regex, left to right,
continuing after each match.  `skip` counts characters of a found match
still to be stepped over (the matcher always returns a length of at least
1, so one character is consumed immediately and `n - 1` remain). -/
def seeRefsAux : Nat → Str → List Str
  | _, [] => []
  | skip + 1, _ :: t => seeRefsAux skip t
  | 0, c :: t =>
    match matchSeeRef (c :: t) with
    | some (ref, n) => ref :: seeRefsAux (n - 1) t
    | none => seeRefsAux 0 t

/-- All `See [..](..)` matches. -/
def seeRefs (s : Str) : List Str := seeRefsAux 0 s

/-- `ref.match(/\(([^)]+)\)/)`: the first parenthesis group with a
non-empty body. -/
def refPath : Str → Option Str
  | [] => none
  | '(' :: t =>
    let inner := t.takeWhile (· != ')')
    if !inner.isEmpty && inner.length < t.length then some inner else refPath t
  | _ :: t => refPath t

/-- `validateStructure`. -/
def validateStructure (parsed : ParsedDoc) : List Issue :=
  (if !(containsSub parsed.body ("## ".toList)) then
    [⟨.warning, "NO_SECTIONS", "Skill should have structured sections",
      "Add sections like \"## Instructions\", \"## Examples\""⟩]
  else [])
  ++ (let referenceMatches := seeRefs parsed.body
      let nestedRefs := referenceMatches.filter (fun ref =>
        match refPath ref with
        | some path => containsSub path ['/'] && decide (2 < path.count '/' + 1)
        | none => false)
      if 0 < nestedRefs.length then
        [⟨.warning, "DEEPLY_NESTED_REFS", "References should be one level deep from SKILL.md",
          "Keep all reference files directly accessible from SKILL.md"⟩]
      else [])

/-- `/there are many (libraries|options|ways)/i` anchored at a lowercased
suffix. -/
def thereAreManyAt (s : Str) : Bool :=
  match eatL ("there are many ".toList) s with
  | some r => (eatAltL ["libraries".toList, "options".toList, "ways".toList] r).isSome
  | none => false

/-- `/first,? you('ll| will) need to/i` anchored at a lowercased suffix. -/
def firstYouNeedAt (s : Str) : Bool :=
  match eatL ("first".toList) s with
  | some r1 =>
    match eatL (" you".toList) (eatOpt ',' r1) with
    | some r3 =>
      (match eatAltL ["\x27ll".toList, " will".toList] r3 with
       | some r4 => (eatL (" need to".toList) r4).isSome
       | none => false)
    | none => false
  | none => false

/-- `/this (is|means|allows)/i` anchored at a lowercased suffix. -/
def thisIsAt (s : Str) : Bool :=
  match eatL ("this ".toList) s with
  | some r => (eatAltL ["is".toList, "means".toList, "allows".toList] r).isSome
  | none => false

/-- A filler word `\b(basically|essentially|simply|just)\b` anchored at a
suffix (leading boundary checked by the caller). -/
def fillersMatch (s : Str) : Option Nat :=
  match ["basically".toList, "essentially".toList, "simply".toList, "just".toList].find?
      (fun w => w.isPrefixOf s && endBoundaryOk (s.drop w.length)) with
  | some w => some w.length
  | none => none

/-- Count the matches of the global filler regex, continuing after each
match.  `skip` steps over the remainder of a found match (match lengths are
at least 1); `prev` is the previous character, for `\b`. -/
def countFillersAux : Option Char → Nat → Str → Nat
  | _, _, [] => 0
  | _, skip + 1, c :: t => countFillersAux (some c) skip t
  | prev, 0, c :: t =>
    match (if boundaryOk prev then fillersMatch (c :: t) else none) with
    | some n => 1 + countFillersAux (some c) (n - 1) t
    | none => countFillersAux (some c) 0 t

/-- The number of filler-word matches in the (lowercased) content. -/
def countFillers (content : Str) : Nat := countFillersAux none 0 (toLowerStr content)

/-- `` `${concept}[^.]*is a[^.]*that[^.]*\.` `` anchored at a lowercased
suffix: within the dot-free segment after the concept, `is a` occurs and
`that` occurs later, and a dot follows the segment. -/
def conceptAt (concept : Str) (s : Str) : Bool :=
  match eatL concept s with
  | some rest =>
    let seg := rest.takeWhile (· != '.')
    decide (seg.length < rest.length) &&
      (match findInfixIdx ("is a".toList) seg with
       | some i => (findInfixIdx ("that".toList) (seg.drop (i + 4))).isSome
       | none => false)
  | none => false

/-- The well-known concepts checked by `validateConciseness`. -/
def commonConcepts : List Str :=
  ["pdf".toList, "json".toList, "api".toList, "http".toList,
   "database".toList, "function".toList, "class".toList]

/-- Is the concept redundantly explained somewhere in the content? -/
def conceptExplained (concept : Str) (content : Str) : Bool :=
  existsPos (conceptAt concept) (toLowerStr content)

/-- `validateConciseness`.  The source iterates a table of
`(pattern, count?, message)` entries; the table is unrolled here.  A
non-global `content.match(pat)` returns `[full, group]`, so
`matches.length` is `2` for these one-group patterns — in particular the
`this (is|means|allows)` entry with threshold `5` can never fire. -/
def validateConciseness (content : Str) : List Issue :=
  let lc := toLowerStr content
  let conciseFix := "Assume Claude already knows common patterns - be more concise"
  (if 1 ≤ (if existsPos thereAreManyAt lc then 2 else 0) then
    [⟨.info, "VERBOSE_CONTENT", "Avoid listing multiple options - provide a default",
      conciseFix⟩]
  else [])
  ++ (if 1 ≤ (if existsPos firstYouNeedAt lc then 2 else 0) then
    [⟨.info, "VERBOSE_CONTENT", "Remove step-by-step explanations of obvious actions",
      conciseFix⟩]
  else [])
  ++ (if 5 ≤ (if existsPos thisIsAt lc then 2 else 0) then
    [⟨.info, "VERBOSE_CONTENT", "Excessive explanatory phrases detected", conciseFix⟩]
  else [])
  ++ (if 3 ≤ countFillers content then
    [⟨.info, "VERBOSE_CONTENT", "Remove filler words", conciseFix⟩]
  else [])
  ++ (match commonConcepts.find? (fun concept => conceptExplained concept content) with
      | some concept =>
        [⟨.info, "UNNECESSARY_EXPLANATION",
          "Unnecessary explanation of \"" ++ String.mk concept ++ "\" - Claude knows what it is",
          "Remove explanations of well-known concepts"⟩]
      | none => [])

/-- The result of `validateSkill`. -/
structure ValidationResult where
  valid : Bool
  issues : List Issue
  summary : String
deriving DecidableEq

/-- `generateSummary`. -/
def generateSummary (issues : List Issue) : String :=
  let errors := (issues.filter (fun i => i.severity == Severity.error)).length
  let warnings := (issues.filter (fun i => i.severity == Severity.warning)).length
  let info := (issues.filter (fun i => i.severity == Severity.info)).length
  if errors = 0 ∧ warnings = 0 ∧ info = 0 then "Skill passes all validations"
  else
    let parts :=
      (if 0 < errors then [toString errors ++ " error(s)"] else [])
      ++ (if 0 < warnings then [toString warnings ++ " warning(s)"] else [])
      ++ (if 0 < info then [toString info ++ " suggestion(s)"] else [])
    "Found " ++ String.intercalate ", " parts

/-- `validateSkill`, with the file content passed directly instead of read
from disk (the `FILE_ERROR` branch of the source handles a failed read and
is out of scope). -/
def validateSkill (content : Str) : ValidationResult :=
  let parsed := parseSkillContent content
  let issues :=
    validateFrontmatter parsed.frontmatter parsed.name parsed.description
    ++ validateContent content parsed
    ++ validateStructure parsed
    ++ validateConciseness content
  { valid := (issues.filter (fun i => i.severity == Severity.error)).length == 0
    issues := issues
    summary := generateSummary issues }

/-! ## SkillGenerator (generate-skill.js, the validator-aware version)

`makeConcise` performs four global case-insensitive regex removals followed
by whitespace collapsing and a trim.  Each removal is a scan that either
consumes a match (emitting nothing) or emits one character and moves on,
carrying the previous input character for `\b` checks. -/

/-- Case-insensitive prefix test (`w` is given lowercase). -/
def ciPrefixOf (w : Str) (s : Str) : Bool := w.isPrefixOf (toLowerStr s)

/-- Case-insensitively eat a literal. -/
def eatLCI (w : Str) (s : Str) : Option Str :=
  if ciPrefixOf w s then some (s.drop w.length) else none

/-- Case-insensitively eat one alternative of a group. -/
def eatAltCI (ws : List Str) (s : Str) : Option Str :=
  match ws.find? (fun w => ciPrefixOf w s) with
  | some w => some (s.drop w.length)
  | none => none

/-- Global replace-by-nothing: at each position try the matcher `m` (which
returns a matched length, always at least 1 for the patterns used); on a
match skip it, otherwise emit the character and move on.  `skip` steps over
the remainder of a found match; `prev` is the previous input character, for
`\b`. -/
def scanReplaceAux (m : Option Char → Str → Option Nat) : Option Char → Nat → Str → Str
  | _, _, [] => []
  | _, skip + 1, c :: t => scanReplaceAux m (some c) skip t
  | prev, 0, c :: t =>
    match m prev (c :: t) with
    | some n =>
      if 1 ≤ n then scanReplaceAux m (some c) (n - 1) t
      else c :: scanReplaceAux m (some c) 0 t
    | none => c :: scanReplaceAux m (some c) 0 t

/-- Global replace-by-nothing over a whole string. -/
def scanReplace (m : Option Char → Str → Option Nat) (s : Str) : Str :=
  scanReplaceAux m none 0 s

/-- `\b(basically|essentially|simply|just)\b\s*` matcher. -/
def mFiller (prev : Option Char) (s : Str) : Option Nat :=
  if boundaryOk prev then
    match ["basically".toList, "essentially".toList, "simply".toList, "just".toList].find?
        (fun w => ciPrefixOf w s && endBoundaryOk (s.drop w.length)) with
    | some w => some (w.length + ((s.drop w.length).takeWhile isJsSpace).length)
    | none => none
  else none

/-- `first,?\s*you('ll| will) need to\s*` matcher (no `\b`, so `prev` is
unused). -/
def mFirstYou (_ : Option Char) (s : Str) : Option Nat :=
  (eatLCI ("first".toList) s).bind (fun r1 =>
    (eatLCI ("you".toList) ((eatOpt ',' r1).dropWhile isJsSpace)).bind (fun r4 =>
      ((eatLCI ("\x27ll".toList) r4).orElse (fun _ => eatLCI (" will".toList) r4)).bind
        (fun r5 =>
          (eatLCI (" need to".toList) r5).map (fun r6 =>
            s.length - (r6.dropWhile isJsSpace).length))))

/-- `there are many (options|ways|approaches) (to|for)\s*` matcher. -/
def mThereAre (_ : Option Char) (s : Str) : Option Nat :=
  (eatLCI ("there are many ".toList) s).bind (fun r1 =>
    (eatAltCI ["options".toList, "ways".toList, "approaches".toList] r1).bind (fun r2 =>
      (eatLCI ([' ']) r2).bind (fun r3 =>
        (eatAltCI ["to".toList, "for".toList] r3).map (fun r4 =>
          s.length - (r4.dropWhile isJsSpace).length))))

/-- `this (is|means|allows)\s+` matcher. -/
def mThisIs (_ : Option Char) (s : Str) : Option Nat :=
  (eatLCI ("this ".toList) s).bind (fun r1 =>
    match ["is".toList, "means".toList, "allows".toList].find?
        (fun w => ciPrefixOf w r1 && !((r1.drop w.length).takeWhile isJsSpace).isEmpty) with
    | some w => some (s.length - ((r1.drop w.length).dropWhile isJsSpace).length)
    | none => none)

/-- Collapse whitespace runs to single spaces (the final `\s+` → `' '`). -/
def collapseWsToSpace (s : Str) : Str := squashRuns isJsSpace ' ' false s

/-- `makeConcise`: the four removals in source order, whitespace collapse,
trim; the empty string maps to itself. -/
def makeConcise (text : Str) : Str :=
  if text.isEmpty then []
  else
    trimStr (collapseWsToSpace
      (scanReplace mThisIs
        (scanReplace mThereAre
          (scanReplace mFirstYou
            (scanReplace mFiller text)))))

/-- The generator's `hasWhenToUse` (three case-insensitive patterns). -/
def hasWhenToUseG (text : Str) : Bool :=
  hasPhraseCI "use when" text || hasPhraseCI "use for" text
  || hasPhraseCI "when working" text || hasPhraseCI "when dealing" text
  || hasPhraseCI "when processing" text || hasPhraseCI "when handling" text

/-- `addWhenToUse`. -/
def addWhenToUse (description category domain : Str) : Str :=
  let domainContext :=
    if domain ≠ "general".toList then
      " in ".toList ++ toUpperStr domain ++ " codebase".toList
    else []
  if category = "anti-pattern".toList then
    description ++ " Use when reviewing code".toList ++ domainContext
      ++ " to avoid this pattern.".toList
  else if category = "best-practice".toList then
    description ++ " Use when implementing similar functionality".toList ++ domainContext
      ++ ['.']
  else description

/-- The description written into the frontmatter: `description || title`,
with a "when to use" clause appended when missing, truncated to 1024
characters with a `...` marker.  (This computation appears verbatim in both
`buildSkillContent` and `applyProgressiveDisclosure`.) -/
def enhancedDescription (r : Skill) : Str :=
  let domain := orElse r.domain ("general".toList)
  let d0 := orElse r.description r.title
  let d1 := if hasWhenToUseG d0 then d0 else addWhenToUse d0 r.category domain
  if 1024 < d1.length then d1.take 1021 ++ "...".toList else d1

/-- The name written into the frontmatter:
`normalizeSkillName(skillData.skillName || skillData.title)`. -/
def builtName (r : Skill) : Str := normalizeSkillName (orElse r.skillName r.title)

/-- The category-specific detail text:
`category === 'anti-pattern' ? antiPattern : bestPractice`. -/
def categoryContentOf (r : Skill) : Str :=
  if r.category = "anti-pattern".toList then r.antiPattern else r.bestPractice

/-- `buildExamplesFile`. -/
def buildExamplesFile (r : Skill) : Str :=
  "# Examples\n\n".toList
  ++ (if !r.badExample.isEmpty then
        "## Bad Example\n\n".toList ++ "```\n".toList ++ trimStr r.badExample
          ++ "\n```\n\n".toList
      else [])
  ++ (if !r.goodExample.isEmpty then
        "## Good Example\n\n".toList ++ "```\n".toList ++ trimStr r.goodExample
          ++ "\n```\n\n".toList
      else [])

/-- `buildDetailsFile`. -/
def buildDetailsFile (r : Skill) : Str :=
  let sectionName :=
    if r.category = "anti-pattern".toList then "Anti-Pattern".toList
    else "Best Practice".toList
  "# ".toList ++ sectionName ++ " Details\n\n".toList ++ categoryContentOf r ++ ['\n']

/-- The `Additional sources` lines (one `  - PR #.. by @..` line per source
that has a `pr`). -/
def listSourceLines (ss : List SourceInfo) : Str :=
  ss.foldl (fun acc s =>
    acc ++ (if !s.pr.isEmpty then
      "  - PR #".toList ++ s.pr ++ " by @".toList
        ++ (if !s.author.isEmpty then s.author else "unknown".toList) ++ ['\n']
    else [])) []

/-- `buildSourceMetadata` (used by `applyProgressiveDisclosure`; note it
lists ALL of `skillData.sources`, unlike `buildSkillContent` which slices
off the first). -/
def buildSourceMetadata (sourceInfo : SourceInfo) (additionalSources : List SourceInfo) : Str :=
  "\n<!--\n".toList ++ "Source Metadata:\n".toList
  ++ (if !sourceInfo.pr.isEmpty then "PR: #".toList ++ sourceInfo.pr ++ ['\n'] else [])
  ++ (if !sourceInfo.author.isEmpty then "Author: @".toList ++ sourceInfo.author ++ ['\n'] else [])
  ++ (if !sourceInfo.date.isEmpty then "Date: ".toList ++ sourceInfo.date ++ ['\n'] else [])
  ++ (if !sourceInfo.file.isEmpty then "File: ".toList ++ sourceInfo.file ++ ['\n'] else [])
  ++ (if 0 < additionalSources.length then
        "Additional sources:\n".toList ++ listSourceLines additionalSources
      else [])
  ++ "-->\n".toList

/-- The markdown body of `buildSkillContent` (the `markdown` local of the
source). -/
def buildMarkdownBody (r : Skill) : Str :=
  "# ".toList ++ r.title ++ "\n\n".toList
  ++ "## Instructions\n\n".toList ++ makeConcise r.instructions ++ "\n\n".toList
  ++ (if r.category = "anti-pattern".toList ∧ ¬r.antiPattern.isEmpty then
        "## Anti-Pattern\n\n".toList ++ makeConcise r.antiPattern ++ "\n\n".toList
      else if r.category = "best-practice".toList ∧ ¬r.bestPractice.isEmpty then
        "## Best Practice\n\n".toList ++ makeConcise r.bestPractice ++ "\n\n".toList
      else [])
  ++ (if ¬r.badExample.isEmpty ∨ ¬r.goodExample.isEmpty then
        "## Examples\n\n".toList
        ++ (if !r.badExample.isEmpty then
              "### Bad\n\n".toList ++ "```\n".toList ++ trimStr r.badExample
                ++ "\n```\n\n".toList
            else [])
        ++ (if !r.goodExample.isEmpty then
              "### Good\n\n".toList ++ "```\n".toList ++ trimStr r.goodExample
                ++ "\n```\n\n".toList
            else [])
      else [])

/-- The trailing metadata comment of `buildSkillContent` (the `metadata`
local of the source; note the `slice(1)` on the sources list). -/
def buildMetadataComment (r : Skill) (sourceInfo : SourceInfo) : Str :=
  "\n<!--\n".toList ++ "Source Metadata (not visible to Claude):\n".toList
  ++ (if !sourceInfo.pr.isEmpty then "PR: #".toList ++ sourceInfo.pr ++ ['\n'] else [])
  ++ (if !sourceInfo.author.isEmpty then "Author: @".toList ++ sourceInfo.author ++ ['\n'] else [])
  ++ (if !sourceInfo.date.isEmpty then "Date: ".toList ++ sourceInfo.date ++ ['\n'] else [])
  ++ (if !sourceInfo.file.isEmpty then "File: ".toList ++ sourceInfo.file ++ ['\n'] else [])
  ++ (if 1 < r.sources.length then
        "Additional sources:\n".toList ++ listSourceLines (r.sources.drop 1)
      else [])
  ++ "-->\n".toList

/-- `buildSkillContent`: YAML frontmatter, markdown body, trailing metadata
comment. -/
def buildSkillContent (r : Skill) (sourceInfo : SourceInfo) : Str :=
  let yaml :=
    "---\nname: ".toList ++ builtName r ++ "\ndescription: ".toList
      ++ enhancedDescription r ++ "\n---".toList
  yaml ++ "\n\n".toList ++ buildMarkdownBody r ++ buildMetadataComment r sourceInfo

/-- `if (skillData.badExample || skillData.goodExample)`. -/
def hasExamples (r : Skill) : Bool := !r.badExample.isEmpty || !r.goodExample.isEmpty

/-- `if (categoryContent && categoryContent.length > 500)`. -/
def detailLong (r : Skill) : Bool :=
  !(categoryContentOf r).isEmpty && decide (500 < (categoryContentOf r).length)

/-- `applyProgressiveDisclosure`: overview main document plus reference
files.  Reference files are modelled by name (`EXAMPLES.md`, `DETAILS.md`)
and content; the source prefixes the on-disk directory, which is out of
scope. -/
def applyProgressiveDisclosure (r : Skill) (sourceInfo : SourceInfo) : Str × List (Str × Str) :=
  let base :=
    "---\nname: ".toList ++ builtName r ++ "\ndescription: ".toList
      ++ enhancedDescription r ++ "\n---\n\n# ".toList ++ r.title
      ++ "\n\n## Overview\n\n".toList ++ makeConcise r.instructions ++ "\n\n".toList
  let exPart :=
    if hasExamples r then
      "## Examples\n\nSee [EXAMPLES.md](EXAMPLES.md) for code examples.\n\n".toList
    else []
  let exRefs := if hasExamples r then [("EXAMPLES.md".toList, buildExamplesFile r)] else []
  let detPart :=
    if detailLong r then
      "## ".toList
      ++ (if r.category = "anti-pattern".toList then "Anti-Pattern Details".toList
          else "Best Practice Details".toList)
      ++ "\n\nSee [DETAILS.md](DETAILS.md) for detailed guidance.\n\n".toList
    else if !(categoryContentOf r).isEmpty then
      "## ".toList
      ++ (if r.category = "anti-pattern".toList then "Anti-Pattern".toList
          else "Best Practice".toList)
      ++ "\n\n".toList ++ makeConcise (categoryContentOf r) ++ "\n\n".toList
    else []
  let detRefs := if detailLong r then [("DETAILS.md".toList, buildDetailsFile r)] else []
  (base ++ exPart ++ detPart ++ buildSourceMetadata sourceInfo r.sources,
   exRefs ++ detRefs)

/-- The content-production step of `generateSkill`: render the document and,
when it exceeds 500 lines, replace it by the progressive-disclosure main
document together with the produced reference files. -/
def generateSkillDocs (r : Skill) (sourceInfo : SourceInfo) : Str × List (Str × Str) :=
  let content := buildSkillContent r sourceInfo
  if 500 < jsLines content then applyProgressiveDisclosure r sourceInfo
  else (content, [])

/-! ## Concrete example records

Used by the concrete evaluation theorems below (counterexamples and
witnesses). -/

/-- A plain well-formed record. -/
def roundtripSkill : Skill :=
  { skillName := "s".toList
    title := "t".toList
    description := "d".toList
    category := "x".toList
    instructions := "i".toList }

/-- The same record with a two-line description. -/
def multilineSkill : Skill :=
  { roundtripSkill with description := "a\nb".toList }

/-- A record whose description holds 510 newlines (1020 characters, under
the 1024 truncation limit), with no examples and no category detail. -/
def overlongSkill : Skill :=
  { skillName := "s".toList
    title := "t".toList
    description := List.flatten (List.replicate 510 ("a\n".toList))
    category := "x".toList
    instructions := "x".toList }

/-- The overlong record, additionally with a bad example. -/
def overlongExampleSkill : Skill :=
  { overlongSkill with badExample := "b".toList }

/-! ## Helper lemmas -/

theorem isPrefixOf_append_self (l t : Str) : l.isPrefixOf (l ++ t) = true := by
  induction l with
  | nil => simp [List.isPrefixOf]
  | cons c l ih => simp [List.isPrefixOf, ih]

theorem wordsOf_eq_empty {r : Skill}
    (h : ∀ w ∈ tokensWs (toLowerStr (textOf r)), w.length ≤ 3) : wordsOf r = ∅ := by
  unfold wordsOf
  have : (tokensWs (toLowerStr (textOf r))).filter (fun w => 3 < w.length) = [] := by
    rw [List.filter_eq_nil_iff]
    intro w hw
    simpa using h w hw
  rw [this]
  rfl

/-! ## Claims -/

/-- **C1** (code bug): the claim says every output of the name normalizer
matches `^[a-z0-9-]*$`, but JS `\w` includes the underscore, so
`normalizeSkillName "a_b" = "a_b"`, which fails the claimed character set —
and fails the repository's own `INVALID_NAME_FORMAT` validator check
(`nameCharsetOk`). -/
theorem normalizeSkillName_underscore_escapes :
    normalizeSkillName ("a_b".toList) = "a_b".toList
    ∧ ('_' ∈ normalizeSkillName ("a_b".toList))
    ∧ ((normalizeSkillName ("a_b".toList)).all
        (fun c => ('a' ≤ c && c ≤ 'z') || ('0' ≤ c && c ≤ '9') || c == '-')) = false
    ∧ nameCharsetOk (normalizeSkillName ("a_b".toList)) = false := by
  refine ⟨by decide, by decide, by decide, by decide⟩

/-- **C6**: the similarity score is symmetric, lies in `[0, 1]`, and an
empty union of significant words scores `0`. -/
theorem calculateSimilarity_symm_bounds (a b : Skill) :
    calculateSimilarity a b = calculateSimilarity b a
    ∧ 0 ≤ calculateSimilarity a b
    ∧ calculateSimilarity a b ≤ 1
    ∧ (wordsOf a ∪ wordsOf b = ∅ → calculateSimilarity a b = 0) := by
  refine ⟨?_, ?_, ?_, ?_⟩
  · simp only [calculateSimilarity]
    rw [Finset.union_comm, Finset.inter_comm]
  · simp only [calculateSimilarity]
    split
    · norm_num
    · rw [Rat.mkRat_eq_divInt, Rat.divInt_eq_div]
      positivity
  · simp only [calculateSimilarity]
    split
    · norm_num
    · rename_i hcard
      rw [Rat.mkRat_eq_divInt, Rat.divInt_eq_div]
      rw [div_le_one (by exact_mod_cast Nat.pos_of_ne_zero hcard)]
      exact_mod_cast Finset.card_le_card Finset.inter_subset_union
  · intro h
    simp [calculateSimilarity, h]

/-- Witness for C6 at a concrete record with no significant words. -/
theorem calculateSimilarity_symm_bounds_witness :
    calculateSimilarity {} {} = 0 :=
  (calculateSimilarity_symm_bounds {} {}).2.2.2 (by decide)

/-- **C7**: merging appends exactly one entry, derived from the incoming
record's `source`, to the existing record's `sources`, leaving the existing
entries unchanged and in order. -/
theorem mergeSkills_sources_append (a b : Skill) :
    (mergeSkills a b).sources = a.sources ++ [b.source]
    ∧ (mergeSkills a b).sources.length = a.sources.length + 1 := by
  refine ⟨rfl, ?_⟩
  simp [mergeSkills]

/-- **C10**: merging changes only `description`, `instructions`, `keywords`
and `sources`; every other field of the existing record is preserved. -/
theorem mergeSkills_frame (a b : Skill) :
    (mergeSkills a b).name = a.name
    ∧ (mergeSkills a b).title = a.title
    ∧ (mergeSkills a b).category = a.category
    ∧ (mergeSkills a b).domain = a.domain
    ∧ (mergeSkills a b).skillName = a.skillName
    ∧ (mergeSkills a b).path = a.path
    ∧ (mergeSkills a b).antiPattern = a.antiPattern
    ∧ (mergeSkills a b).bestPractice = a.bestPractice
    ∧ (mergeSkills a b).badExample = a.badExample
    ∧ (mergeSkills a b).goodExample = a.goodExample
    ∧ (mergeSkills a b).source = a.source :=
  ⟨rfl, rfl, rfl, rfl, rfl, rfl, rfl, rfl, rfl, rfl, rfl⟩

/-- **C9**: a record all of whose words have length at most 3 has
self-similarity `0` (not `1`), so `findSimilarSkills` does not report it
even against an identical corpus entry. -/
theorem short_words_self_similarity_zero (r : Skill)
    (h : ∀ w ∈ tokensWs (toLowerStr (textOf r)), w.length ≤ 3) :
    calculateSimilarity r r = 0 ∧ findSimilarSkills r [r] = [] := by
  have hw : wordsOf r = ∅ := wordsOf_eq_empty h
  have hsim : calculateSimilarity r r = 0 := by simp [calculateSimilarity, hw]
  refine ⟨hsim, ?_⟩
  have hth : ¬ (similarityThreshold ≤ (0 : ℚ)) := by decide
  simp [findSimilarSkills, hsim, hth, List.insertionSort]

/-- Witness for C9 at a concrete record with only short words. -/
theorem short_words_self_similarity_zero_witness :
    calculateSimilarity { title := "ab cd".toList } { title := "ab cd".toList } = 0
    ∧ findSimilarSkills { title := "ab cd".toList } [{ title := "ab cd".toList }] = [] :=
  short_words_self_similarity_zero { title := "ab cd".toList } (by decide)

/-- **C5**: `findSimilarSkills` returns the empty sequence on an empty
corpus, every returned score reaches the `0.8` threshold, and the result is
sorted by descending score. -/
theorem findSimilarSkills_spec (ns : Skill) (corpus : List Skill) :
    findSimilarSkills ns [] = []
    ∧ (∀ e ∈ findSimilarSkills ns corpus, similarityThreshold ≤ e.2)
    ∧ List.Sorted simRel (findSimilarSkills ns corpus) := by
  refine ⟨rfl, ?_, ?_⟩
  · intro e he
    simp only [findSimilarSkills] at he
    rw [List.mem_insertionSort] at he
    obtain ⟨x, _, hfx⟩ := List.mem_filterMap.mp he
    by_cases h : similarityThreshold ≤ calculateSimilarity ns x
    · rw [if_pos h] at hfx
      cases hfx
      exact h
    · rw [if_neg h] at hfx
      cases hfx
  · exact List.sorted_insertionSort simRel _

/-- Witness for C5: a corpus entry identical to the candidate scores `1`
and is returned. -/
theorem findSimilarSkills_spec_witness :
    similarityThreshold ≤ (({ title := "abcd".toList } : Skill), (1 : ℚ)).2 :=
  (findSimilarSkills_spec { title := "abcd".toList } [{ title := "abcd".toList }]).2.1
    ({ title := "abcd".toList }, (1 : ℚ)) (by decide)

/-- **C8**: the gerund table rewrites the leading `{verb}-` segment only —
`"Avoid Direct State"` normalizes to `"avoiding-direct-state"`, the whole
leading segment must match (so `"avoidance-x"` is untouched), the
substitution replaces exactly the leading verb and keeps the tail, and
names with no matching leading verb pass through unchanged. -/
theorem gerund_leading_token_only :
    normalizeSkillName ("Avoid Direct State".toList) = "avoiding-direct-state".toList
    ∧ convertToGerundForm ("avoidance-x".toList) = "avoidance-x".toList
    ∧ (∀ rest : Str,
        convertToGerundForm ("avoid-".toList ++ rest) = "avoiding-".toList ++ rest)
    ∧ convertToGerundForm ("fix-bug".toList) = "fixing-bug".toList
    ∧ (∀ name : Str,
        (∀ p ∈ verbMappings, (p.1 ++ ['-']).isPrefixOf name = false) →
          convertToGerundForm name = name) := by
  refine ⟨by decide, by decide, ?_, by decide, ?_⟩
  · intro rest
    have hpre : (("avoid".toList ++ ['-']).isPrefixOf ("avoid-".toList ++ rest)) = true := by
      have h2 : ("avoid".toList ++ ['-'] : Str) = "avoid-".toList := by decide
      rw [h2]
      exact isPrefixOf_append_self _ _
    have hfind : List.find? (fun p => (p.1 ++ ['-']).isPrefixOf ("avoid-".toList ++ rest))
        verbMappings = some ("avoid".toList, "avoiding".toList) := by
      unfold verbMappings
      exact List.find?_cons_of_pos _ hpre
    simp only [convertToGerundForm, hfind]
    have h6 : ("avoid-".toList : Str).length = ("avoid".toList : Str).length + 1 := by decide
    have hdrop : ("avoid-".toList ++ rest).drop (("avoid".toList : Str).length + 1) = rest := by
      rw [← h6, List.drop_left]
    rw [hdrop]
    have h9 : ("avoiding-".toList : Str) = "avoiding".toList ++ ['-'] := by decide
    rw [h9, List.append_assoc]
    rfl
  · intro name h
    unfold convertToGerundForm
    cases hf : verbMappings.find? (fun p => (p.1 ++ ['-']).isPrefixOf name) with
    | none => rfl
    | some p =>
      have hp := List.find?_some hf
      have hmem := List.mem_of_find?_eq_some hf
      rw [h p hmem] at hp
      cases hp

/-- Witness for C8 at a name matching no table verb. -/
theorem gerund_leading_token_only_witness :
    convertToGerundForm ("zzz".toList) = "zzz".toList :=
  gerund_leading_token_only.2.2.2.2 ("zzz".toList) (by decide)

theorem validateContent_no_errors (content : Str) (parsed : ParsedDoc) :
    (validateContent content parsed).filter (fun i => i.severity == Severity.error) = [] := by
  have hw : (Severity.warning == Severity.error) = false := by decide
  unfold validateContent
  simp only [List.filter_append]
  repeat' split <;> simp [List.filter, hw]

theorem validateStructure_no_errors (parsed : ParsedDoc) :
    (validateStructure parsed).filter (fun i => i.severity == Severity.error) = [] := by
  have hw : (Severity.warning == Severity.error) = false := by decide
  unfold validateStructure
  simp only [List.filter_append]
  repeat' split <;> simp [List.filter, hw]

theorem validateConciseness_no_errors (content : Str) :
    (validateConciseness content).filter (fun i => i.severity == Severity.error) = [] := by
  have hi : (Severity.info == Severity.error) = false := by decide
  unfold validateConciseness
  simp only [List.filter_append]
  repeat' split <;> simp [List.filter, hi]

/-- **C4**: on a document without a recognizable frontmatter block,
`validateSkill` yields exactly the two "required" errors (missing name,
missing description) as its error-severity issues, so the result is
invalid. -/
theorem validate_missing_frontmatter (content : Str)
    (h : frontmatterOf content = none) :
    ((validateSkill content).issues.filter
        (fun i => i.severity == Severity.error)).map (fun i => i.code)
      = ["MISSING_NAME", "MISSING_DESCRIPTION"]
    ∧ (validateSkill content).valid = false := by
  have hname : findField ("name:".toList) [] = none := by decide
  have hdesc : findField ("description:".toList) [] = none := by decide
  have hp : parseSkillContent content =
      { frontmatter := [], body := content, name := [], description := [],
        lines := jsLines content } := by
    simp only [parseSkillContent, h, Option.getD_none, hname, hdesc]
  have hvf : (validateFrontmatter [] [] []).filter
      (fun i => i.severity == Severity.error)
      = [⟨.error, "MISSING_NAME", "Skill must have a name field in frontmatter",
          "Add \"name: your-skill-name\" to the YAML frontmatter"⟩,
         ⟨.error, "MISSING_DESCRIPTION", "Skill must have a description field in frontmatter",
          "Add \"description: Your skill description\" to the YAML frontmatter"⟩] := by
    decide
  have hissues : (validateSkill content).issues =
      validateFrontmatter [] [] []
      ++ validateContent content (parseSkillContent content)
      ++ validateStructure (parseSkillContent content)
      ++ validateConciseness content := by
    simp only [validateSkill, hp]
  constructor
  · rw [hissues]
    simp only [List.filter_append, hvf, validateContent_no_errors,
      validateStructure_no_errors, validateConciseness_no_errors,
      List.append_nil, List.map_append]
    rfl
  · have hvalid : (validateSkill content).valid
        = (((validateSkill content).issues.filter
            (fun i => i.severity == Severity.error)).length == 0) := rfl
    rw [hvalid, hissues]
    simp only [List.filter_append, hvf, validateContent_no_errors,
      validateStructure_no_errors, validateConciseness_no_errors, List.append_nil]
    rfl

/-- Witness for C4 at the frontmatter-less document `"hello"`. -/
theorem validate_missing_frontmatter_witness :
    ((validateSkill ("hello".toList)).issues.filter
        (fun i => i.severity == Severity.error)).map (fun i => i.code)
      = ["MISSING_NAME", "MISSING_DESCRIPTION"]
    ∧ (validateSkill ("hello".toList)).valid = false :=
  validate_missing_frontmatter ("hello".toList) (by decide)

/-! ## Lemmas about the normalizer's output alphabet -/

theorem mem_squashRuns {p : Char → Bool} {r : Char} {b : Bool} {s : Str} {c : Char}
    (hc : c ∈ squashRuns p r b s) : c = r ∨ (c ∈ s ∧ p c = false) := by
  induction s generalizing b with
  | nil => simp [squashRuns] at hc
  | cons a t ih =>
    unfold squashRuns at hc
    by_cases hpa : p a
    · rw [if_pos hpa] at hc
      cases b with
      | true =>
        rcases ih hc with h | ⟨h1, h2⟩
        · exact Or.inl h
        · exact Or.inr ⟨List.mem_cons_of_mem _ h1, h2⟩
      | false =>
        rcases List.mem_cons.mp hc with h | h
        · exact Or.inl h
        · rcases ih h with h | ⟨h1, h2⟩
          · exact Or.inl h
          · exact Or.inr ⟨List.mem_cons_of_mem _ h1, h2⟩
    · rw [if_neg hpa] at hc
      rcases List.mem_cons.mp hc with h | h
      · subst h
        exact Or.inr ⟨List.mem_cons_self _ _, Bool.eq_false_iff.mpr hpa⟩
      · rcases ih h with h | ⟨h1, h2⟩
        · exact Or.inl h
        · exact Or.inr ⟨List.mem_cons_of_mem _ h1, h2⟩

theorem mem_trimEdgeHyphens {s : Str} {c : Char} (hc : c ∈ trimEdgeHyphens s) : c ∈ s := by
  unfold trimEdgeHyphens at hc
  have step1 : ∀ s1 : Str, c ∈ (match s1.getLast? with
      | some '-' => s1.dropLast
      | _ => s1) → c ∈ s1 := by
    intro s1 h1
    split at h1
    · exact (List.dropLast_sublist _).subset h1
    · exact h1
  split at hc
  · exact List.mem_cons_of_mem _ (step1 _ hc)
  · exact step1 _ hc

theorem mem_removeTrailingHyphen {s : Str} {c : Char} (hc : c ∈ removeTrailingHyphen s) :
    c ∈ s := by
  unfold removeTrailingHyphen at hc
  split at hc
  · exact (List.dropLast_sublist _).subset hc
  · exact hc

theorem gerund_table_no_space :
    ∀ p ∈ verbMappings, ∀ c ∈ p.2, isJsSpace c = false := by decide

theorem mem_convertToGerundForm_no_space {n : Str} {c : Char}
    (hn : ∀ c ∈ n, isJsSpace c = false) (hc : c ∈ convertToGerundForm n) :
    isJsSpace c = false := by
  unfold convertToGerundForm at hc
  cases hf : verbMappings.find? (fun p => (p.1 ++ ['-']).isPrefixOf n) with
  | none =>
    rw [hf] at hc
    exact hn c hc
  | some p =>
    rw [hf] at hc
    rcases List.mem_append.mp hc with h | h
    · exact gerund_table_no_space p (List.mem_of_find?_eq_some hf) c h
    · rcases List.mem_cons.mp h with h | h
      · subst h
        decide
      · exact hn c (List.drop_subset _ _ h)

/-- Every character of a normalized name is a non-whitespace character (in
fact it lies in `[a-z0-9_-]`); in particular normalized names contain no
newline and are fixed by `trim`. -/
theorem normalizeSkillName_no_space (s : Str) :
    ∀ c ∈ normalizeSkillName s, isJsSpace c = false := by
  intro c hc
  unfold normalizeSkillName at hc
  dsimp only at hc
  have base : ∀ d ∈ trimEdgeHyphens (collapseHyphens (spacesToHyphens (stripNonWord
      (toLowerStr s)))), isJsSpace d = false := by
    intro d hd
    have hd2 := mem_trimEdgeHyphens hd
    rcases mem_squashRuns hd2 with h | ⟨h1, _⟩
    · subst h
      decide
    · rcases mem_squashRuns h1 with h | ⟨_, h2⟩
      · subst h
        decide
      · exact h2
  split at hc
  · exact mem_convertToGerundForm_no_space base
      (List.take_subset _ _ (mem_removeTrailingHyphen hc))
  · exact mem_convertToGerundForm_no_space base hc

/-! ## Lemmas about frontmatter extraction -/

theorem isPrefixOf_cons_ne {a b : Char} (h : a ≠ b) (as bs : Str) :
    (a :: as).isPrefixOf (b :: bs) = false := by
  simp [List.isPrefixOf, h]

theorem findInfixIdx_self {pat : Str} (hpat : pat ≠ []) (t : Str) :
    findInfixIdx pat (pat ++ t) = some 0 := by
  cases pat with
  | nil => exact absurd rfl hpat
  | cons a as =>
    have h := isPrefixOf_append_self (a :: as) t
    rw [List.cons_append]
    rw [List.cons_append] at h
    unfold findInfixIdx
    rw [if_pos h]

theorem findInfixIdx_cons_not_pre {pat : Str} {c : Char} {t : Str} {k : Nat}
    (hnp : pat.isPrefixOf (c :: t) = false) (h2 : findInfixIdx pat t = some k) :
    findInfixIdx pat (c :: t) = some (k + 1) := by
  unfold findInfixIdx
  rw [if_neg (by simp [hnp]), h2]
  rfl

theorem findInfixIdx_append_newline_free {ps : Str} {B s2 : Str} {k : Nat}
    (hB : '\n' ∉ B) (h2 : findInfixIdx ('\n' :: ps) s2 = some k) :
    findInfixIdx ('\n' :: ps) (B ++ s2) = some (B.length + k) := by
  induction B with
  | nil => simpa using h2
  | cons c B ih =>
    have hcne : ('\n' : Char) ≠ c := fun h => hB (h ▸ List.mem_cons_self _ _)
    have hB' : '\n' ∉ B := fun h => hB (List.mem_cons_of_mem _ h)
    rw [List.cons_append]
    rw [findInfixIdx_cons_not_pre (isPrefixOf_cons_ne hcne _ _) (ih hB')]
    simp only [List.length_cons, Option.some.injEq]
    omega

/-! ## Lemmas about whitespace and `takeWhile` -/

theorem takeWhile_append_newline {N Y : Str} (h : '\n' ∉ N) :
    (N ++ '\n' :: Y).takeWhile (· != '\n') = N := by
  induction N with
  | nil => simp
  | cons c N ih =>
    have hc : (c != '\n') = true := by
      simp only [bne_iff_ne, ne_eq]
      exact fun hh => h (hh ▸ List.mem_cons_self _ _)
    have h' : '\n' ∉ N := fun hh => h (List.mem_cons_of_mem _ hh)
    rw [List.cons_append]
    simp only [List.takeWhile_cons, hc, if_true]
    rw [ih h']

theorem takeWhile_newline_free {D : Str} (h : '\n' ∉ D) :
    D.takeWhile (· != '\n') = D := by
  induction D with
  | nil => rfl
  | cons c D ih =>
    have hc : (c != '\n') = true := by
      simp only [bne_iff_ne, ne_eq]
      exact fun hh => h (hh ▸ List.mem_cons_self _ _)
    have h' : '\n' ∉ D := fun hh => h (List.mem_cons_of_mem _ hh)
    simp only [List.takeWhile_cons, hc, if_true]
    rw [ih h']

theorem dropWhile_no_space {N : Str} (h : ∀ c ∈ N, isJsSpace c = false) :
    N.dropWhile isJsSpace = N := by
  cases N with
  | nil => rfl
  | cons c N =>
    exact List.dropWhile_cons_of_neg (by simp [h c (List.mem_cons_self _ _)])

theorem trimStr_no_space {N : Str} (h : ∀ c ∈ N, isJsSpace c = false) :
    trimStr N = N := by
  unfold trimStr
  rw [dropWhile_no_space h]
  rw [dropWhile_no_space (fun c hc => h c (List.mem_reverse.mp hc))]
  exact List.reverse_reverse N

theorem dropWhile_of_trim_fixed {D : Str} (hDt : trimStr D = D) :
    D.dropWhile isJsSpace = D := by
  have hsub : List.Sublist (D.dropWhile isJsSpace) D := List.dropWhile_sublist _
  have h1 : (D.dropWhile isJsSpace).length ≤ D.length := hsub.length_le
  have h2 : (trimStr D).length ≤ (D.dropWhile isJsSpace).length := by
    unfold trimStr
    rw [List.length_reverse]
    calc ((D.dropWhile isJsSpace).reverse.dropWhile isJsSpace).length
        ≤ (D.dropWhile isJsSpace).reverse.length := (List.dropWhile_sublist _).length_le
      _ = (D.dropWhile isJsSpace).length := List.length_reverse _
  rw [hDt] at h2
  exact hsub.eq_of_length (le_antisymm h1 h2)

/-! ## Lemmas about the field scanner -/

theorem findFieldAux_here {key s : Str}
    (hpre : key.isPrefixOf s = true)
    (hany : (s.drop key.length).any (· != '\n') = true) :
    findFieldAux key true s
      = some (trimStr (((s.drop key.length).dropWhile isJsSpace).takeWhile (· != '\n'))) := by
  rw [findFieldAux.eq_def]
  simp [hpre, hany]

theorem findFieldAux_inner {key : Str} {A rest : Str} (hA : '\n' ∉ A) :
    findFieldAux key false (A ++ '\n' :: rest) = findFieldAux key true rest := by
  induction A with
  | nil =>
    rw [List.nil_append, findFieldAux.eq_def]
    simp
  | cons c A ih =>
    have hc : (c == '\n') = false := by
      simp only [beq_eq_false_iff_ne, ne_eq]
      exact fun h => hA (h ▸ List.mem_cons_self _ _)
    have hA' : '\n' ∉ A := fun h => hA (List.mem_cons_of_mem _ h)
    rw [List.cons_append, findFieldAux.eq_def]
    simp [hc]
    exact ih hA'

theorem findFieldAux_start_skip {key : Str} {A rest : Str} (hA : '\n' ∉ A)
    (hk : key.isPrefixOf (A ++ '\n' :: rest) = false) :
    findFieldAux key true (A ++ '\n' :: rest) = findFieldAux key true rest := by
  cases A with
  | nil =>
    rw [List.nil_append] at hk ⊢
    rw [findFieldAux.eq_def]
    simp [hk]
  | cons c A =>
    have hc : (c == '\n') = false := by
      simp only [beq_eq_false_iff_ne, ne_eq]
      exact fun h => hA (h ▸ List.mem_cons_self _ _)
    have hA' : '\n' ∉ A := fun h => hA (List.mem_cons_of_mem _ h)
    rw [List.cons_append] at hk ⊢
    rw [findFieldAux.eq_def]
    simp [hk, hc]
    exact findFieldAux_inner hA'

/-- The frontmatter block of a well-formed built document is recovered
exactly: the closing `\n---` found by the non-greedy search is the real
one, since neither the name (whitespace-free) nor the single-line
description contains a newline. -/
theorem frontmatterOf_wellformed (N D tail : Str)
    (hA : ('\n' : Char) ∉ "name: ".toList ++ N)
    (hB : ('\n' : Char) ∉ "description: ".toList ++ D) :
    frontmatterOf ("---\nname: ".toList ++ N ++ "\ndescription: ".toList ++ D
        ++ "\n---".toList ++ tail)
      = some (("name: ".toList ++ N) ++ '\n' :: ("description: ".toList ++ D)) := by
  have l1 : ("---\nname: ".toList : Str) = "---\n".toList ++ "name: ".toList := by decide
  have l2 : ("\ndescription: ".toList : Str) = '\n' :: "description: ".toList := by decide
  have hcontent : "---\nname: ".toList ++ N ++ "\ndescription: ".toList ++ D
      ++ "\n---".toList ++ tail
      = "---\n".toList ++ ((("name: ".toList ++ N) ++ '\n' :: ("description: ".toList ++ D))
          ++ ("\n---".toList ++ tail)) := by
    rw [l1, l2]
    simp [List.append_assoc]
  rw [hcontent]
  unfold frontmatterOf
  rw [if_pos (isPrefixOf_append_self _ _)]
  have hdrop : ("---\n".toList ++ ((("name: ".toList ++ N)
        ++ '\n' :: ("description: ".toList ++ D)) ++ ("\n---".toList ++ tail))).drop 4
      = (("name: ".toList ++ N) ++ '\n' :: ("description: ".toList ++ D))
        ++ ("\n---".toList ++ tail) := by
    rw [show (4 : Nat) = ("---\n".toList : Str).length from rfl, List.drop_left]
  rw [hdrop]
  have hpat : ("\n---".toList : Str) = '\n' :: "---".toList := rfl
  have h3 : findInfixIdx ('\n' :: "---".toList) (("\n---".toList ++ tail : Str)) = some 0 := by
    rw [show ("\n---".toList ++ tail : Str) = ('\n' :: "---".toList) ++ tail from rfl]
    exact findInfixIdx_self (by decide) tail
  have h4 : findInfixIdx ('\n' :: "---".toList)
      (("description: ".toList ++ D) ++ ("\n---".toList ++ tail))
      = some (("description: ".toList ++ D).length + 0) :=
    findInfixIdx_append_newline_free hB h3
  have h5 : (('\n' :: "---".toList : Str)).isPrefixOf
      ('\n' :: (("description: ".toList ++ D) ++ ("\n---".toList ++ tail))) = false := by
    have hdd : (("---".toList : Str)).isPrefixOf
        (("description: ".toList ++ D) ++ ("\n---".toList ++ tail)) = false :=
      isPrefixOf_cons_ne (by decide) _ _
    simp [List.isPrefixOf, hdd]
  have h6 : findInfixIdx ('\n' :: "---".toList)
      ('\n' :: (("description: ".toList ++ D) ++ ("\n---".toList ++ tail)))
      = some (("description: ".toList ++ D).length + 0 + 1) :=
    findInfixIdx_cons_not_pre h5 h4
  have h7 : findInfixIdx ('\n' :: "---".toList)
      (("name: ".toList ++ N) ++ ('\n' :: ((("description: ".toList ++ D)
        ++ ("\n---".toList ++ tail)))))
      = some (("name: ".toList ++ N).length
          + (("description: ".toList ++ D).length + 0 + 1)) :=
    findInfixIdx_append_newline_free hA h6
  have hassoc : ((("name: ".toList ++ N) ++ '\n' :: ("description: ".toList ++ D))
        ++ ("\n---".toList ++ tail))
      = (("name: ".toList ++ N) ++ ('\n' :: ((("description: ".toList ++ D)
        ++ ("\n---".toList ++ tail))))) := by
    simp [List.append_assoc]
  have h7' : findInfixIdx ("\n---".toList)
      ((("name: ".toList ++ N) ++ '\n' :: ("description: ".toList ++ D))
        ++ ("\n---".toList ++ tail))
      = some (("name: ".toList ++ N).length
          + (("description: ".toList ++ D).length + 0 + 1)) := by
    rw [hassoc]
    exact h7
  rw [h7']
  simp only [Option.map_some']
  congr 1
  have hlen : ("name: ".toList ++ N).length + (("description: ".toList ++ D).length + 0 + 1)
      = (("name: ".toList ++ N) ++ '\n' :: ("description: ".toList ++ D)).length := by
    simp only [List.length_append, List.length_cons]
  rw [hlen, List.take_left]

/-- The `name:` field of the recovered frontmatter is the written name,
provided the name is non-empty and whitespace-free. -/
theorem findField_name (N D : Str)
    (hNs : ∀ c ∈ N, isJsSpace c = false) (hNne : N ≠ []) (hNn : ('\n' : Char) ∉ N) :
    findField ("name:".toList)
      (("name: ".toList ++ N) ++ '\n' :: ("description: ".toList ++ D)) = some N := by
  have hF : (("name: ".toList ++ N) ++ '\n' :: ("description: ".toList ++ D))
      = "name:".toList ++ (' ' :: (N ++ '\n' :: ("description: ".toList ++ D))) := by
    have l3 : ("name: ".toList : Str) = "name:".toList ++ [' '] := by decide
    rw [l3]
    simp [List.append_assoc]
  unfold findField
  rw [hF]
  have hdrop : (("name:".toList ++ (' ' :: (N ++ '\n' :: ("description: ".toList ++ D))))).drop
      (("name:".toList : Str)).length = ' ' :: (N ++ '\n' :: ("description: ".toList ++ D)) :=
    List.drop_left _ _
  rw [findFieldAux_here (isPrefixOf_append_self _ _) (by rw [hdrop]; simp)]
  rw [hdrop]
  rw [List.dropWhile_cons_of_pos (by decide)]
  have hdw : (N ++ '\n' :: ("description: ".toList ++ D)).dropWhile isJsSpace
      = N ++ '\n' :: ("description: ".toList ++ D) := by
    cases N with
    | nil => exact absurd rfl hNne
    | cons n0 N' =>
      rw [List.cons_append]
      exact List.dropWhile_cons_of_neg (by simp [hNs n0 (List.mem_cons_self _ _)])
  rw [hdw, takeWhile_append_newline hNn, trimStr_no_space hNs]

/-- The `description:` field of the recovered frontmatter is the written
description, provided it is a single trim-fixed line. -/
theorem findField_description (N D : Str)
    (hA : ('\n' : Char) ∉ "name: ".toList ++ N)
    (hDn : ('\n' : Char) ∉ D) (hDt : trimStr D = D) :
    findField ("description:".toList)
      (("name: ".toList ++ N) ++ '\n' :: ("description: ".toList ++ D)) = some D := by
  unfold findField
  have hk : ("description:".toList : Str).isPrefixOf
      (("name: ".toList ++ N) ++ '\n' :: ("description: ".toList ++ D)) = false :=
    isPrefixOf_cons_ne (by decide) _ _
  rw [findFieldAux_start_skip hA hk]
  have hB : ("description: ".toList ++ D : Str)
      = "description:".toList ++ (' ' :: D) := by
    have l4 : ("description: ".toList : Str) = "description:".toList ++ [' '] := by decide
    rw [l4]
    simp [List.append_assoc]
  rw [hB]
  have hdrop : (("description:".toList ++ (' ' :: D))).drop
      (("description:".toList : Str)).length = ' ' :: D := List.drop_left _ _
  rw [findFieldAux_here (isPrefixOf_append_self _ _) (by rw [hdrop]; simp)]
  rw [hdrop]
  rw [List.dropWhile_cons_of_pos (by decide)]
  rw [dropWhile_of_trim_fixed hDt, takeWhile_newline_free hDn, hDt]

/-- Parsing a well-formed built document recovers the written `name` and
`description` fields exactly. -/
theorem parseSkillContent_wellformed (N D tail : Str)
    (hNs : ∀ c ∈ N, isJsSpace c = false) (hNne : N ≠ [])
    (hDn : ('\n' : Char) ∉ D) (hDt : trimStr D = D) :
    (parseSkillContent ("---\nname: ".toList ++ N ++ "\ndescription: ".toList ++ D
        ++ "\n---".toList ++ tail)).name = N
    ∧ (parseSkillContent ("---\nname: ".toList ++ N ++ "\ndescription: ".toList ++ D
        ++ "\n---".toList ++ tail)).description = D := by
  have hNn : ('\n' : Char) ∉ N := fun h => absurd (hNs '\n' h) (by decide)
  have hA : ('\n' : Char) ∉ "name: ".toList ++ N := by
    intro h
    rcases List.mem_append.mp h with h | h
    · exact absurd h (by decide)
    · exact hNn h
  have hB : ('\n' : Char) ∉ "description: ".toList ++ D := by
    intro h
    rcases List.mem_append.mp h with h | h
    · exact absurd h (by decide)
    · exact hDn h
  have hfm := frontmatterOf_wellformed N D tail hA hB
  constructor
  · simp only [parseSkillContent, hfm, Option.getD_some,
      findField_name N D hNs hNne hNn]
  · simp only [parseSkillContent, hfm, Option.getD_some,
      findField_description N D hA hDn hDt]

/-- **C3** counterexample: for a record with the two-line description
`"a\nb"`, the document built by `buildSkillContent` parses back with
description `"a"` — not the description the record was built from (the
multi-line value is also exactly what was written into the frontmatter, so
the round-trip fails under either reading of the claim). -/
theorem parse_build_roundtrip_counterexample :
    (parseSkillContent (buildSkillContent multilineSkill {})).description = "a".toList
    ∧ multilineSkill.description = "a\nb".toList
    ∧ enhancedDescription multilineSkill = "a\nb".toList
    ∧ (parseSkillContent (buildSkillContent multilineSkill {})).description
        ≠ multilineSkill.description := by
  refine ⟨by decide, by decide, by decide, by decide⟩

/-- **C3** (amended): parsing a document produced by `buildSkillContent`
yields back exactly the `name` and `description` strings written into the
frontmatter, provided the built name is non-empty and the built description
is a single line with no surrounding whitespace.  (The written strings are
`builtName` — the normalized `skillName || title` — and
`enhancedDescription` — the description with a "when to use" clause
appended when missing and truncated to 1024 characters.) -/
theorem parse_build_roundtrip (r : Skill) (src : SourceInfo)
    (hNne : builtName r ≠ [])
    (hDn : ('\n' : Char) ∉ enhancedDescription r)
    (hDt : trimStr (enhancedDescription r) = enhancedDescription r) :
    (parseSkillContent (buildSkillContent r src)).name = builtName r
    ∧ (parseSkillContent (buildSkillContent r src)).description = enhancedDescription r := by
  have hNs : ∀ c ∈ builtName r, isJsSpace c = false := normalizeSkillName_no_space _
  have hshape : buildSkillContent r src
      = "---\nname: ".toList ++ builtName r ++ "\ndescription: ".toList
        ++ enhancedDescription r ++ "\n---".toList
        ++ ("\n\n".toList ++ (buildMarkdownBody r ++ buildMetadataComment r src)) := by
    simp only [buildSkillContent, List.append_assoc]
  rw [hshape]
  exact parseSkillContent_wellformed _ _ _ hNs hNne hDn hDt

/-- Witness for C3 at a concrete single-line record. -/
theorem parse_build_roundtrip_witness :
    (parseSkillContent (buildSkillContent roundtripSkill {})).name = builtName roundtripSkill
    ∧ (parseSkillContent (buildSkillContent roundtripSkill {})).description
        = enhancedDescription roundtripSkill :=
  parse_build_roundtrip roundtripSkill {} (by decide) (by decide) (by decide)

/-! ## Progressive disclosure -/

theorem infix_append_mid {l m : Str} (a b : Str) (h : l <:+: m) : l <:+: a ++ m ++ b := by
  obtain ⟨s, t, rfl⟩ := h
  exact ⟨a ++ s, t ++ b, by simp [List.append_assoc]⟩

theorem infix_append_left_part {l a : Str} (b : Str) (h : l <:+: a) : l <:+: a ++ b := by
  obtain ⟨s, t, rfl⟩ := h
  exact ⟨s, t ++ b, by simp [List.append_assoc]⟩

theorem infix_append_right_part {l b : Str} (a : Str) (h : l <:+: b) : l <:+: a ++ b := by
  obtain ⟨s, t, rfl⟩ := h
  exact ⟨a ++ s, t, by simp [List.append_assoc]⟩

/-- The main document of `applyProgressiveDisclosure` contains a pointer to
each produced reference file's name, and reference files are produced
exactly when the record has examples or a long category detail. -/
theorem applyProgressiveDisclosure_spec (r : Skill) (src : SourceInfo) :
    (∀ f ∈ (applyProgressiveDisclosure r src).2,
        f.1 <:+: (applyProgressiveDisclosure r src).1)
    ∧ ((applyProgressiveDisclosure r src).2 ≠ []
        ↔ (hasExamples r = true ∨ detailLong r = true)) := by
  have hrefs : (applyProgressiveDisclosure r src).2
      = (if hasExamples r then [("EXAMPLES.md".toList, buildExamplesFile r)] else [])
        ++ (if detailLong r then [("DETAILS.md".toList, buildDetailsFile r)] else []) := rfl
  constructor
  · intro f hf
    rw [hrefs] at hf
    rcases List.mem_append.mp hf with hf | hf
    · cases hexv : hasExamples r with
      | false =>
        rw [hexv] at hf
        simp at hf
      | true =>
        rw [hexv] at hf
        simp only [if_true] at hf
        rcases List.mem_singleton.mp hf with rfl
        show ("EXAMPLES.md".toList : Str) <:+: (applyProgressiveDisclosure r src).1
        have hx : ("EXAMPLES.md".toList : Str) <:+:
            (if hasExamples r then
              ("## Examples\n\nSee [EXAMPLES.md](EXAMPLES.md) for code examples.\n\n".toList : Str)
            else []) := by
          rw [hexv]
          simp only [if_true]
          decide
        exact infix_append_left_part _ (infix_append_left_part _ (infix_append_right_part _ hx))
    · cases hdetv : detailLong r with
      | false =>
        rw [hdetv] at hf
        simp at hf
      | true =>
        rw [hdetv] at hf
        simp only [if_true] at hf
        rcases List.mem_singleton.mp hf with rfl
        show ("DETAILS.md".toList : Str) <:+: (applyProgressiveDisclosure r src).1
        have hx : ("DETAILS.md".toList : Str) <:+:
            (if detailLong r then
              "## ".toList
              ++ (if r.category = "anti-pattern".toList then "Anti-Pattern Details".toList
                  else "Best Practice Details".toList)
              ++ "\n\nSee [DETAILS.md](DETAILS.md) for detailed guidance.\n\n".toList
            else if !(categoryContentOf r).isEmpty then
              "## ".toList
              ++ (if r.category = "anti-pattern".toList then "Anti-Pattern".toList
                  else "Best Practice".toList)
              ++ "\n\n".toList ++ makeConcise (categoryContentOf r) ++ "\n\n".toList
            else []) := by
          rw [hdetv]
          simp only [if_true]
          exact infix_append_right_part _ (by decide)
        exact infix_append_left_part _ (infix_append_right_part _ hx)
  · rw [hrefs]
    cases hexv : hasExamples r <;> cases hdetv : detailLong r <;> simp [hexv, hdetv]

set_option maxRecDepth 200000 in
/-- **C2** counterexample: a record whose rendered document exceeds 500
lines only because its description is multi-line.  Progressive disclosure
triggers, yet it produces no reference files and a main document still over
500 lines, refuting both the "main ≤ 500 lines" and the "at least one
reference document" parts of the claim. -/
theorem progressive_disclosure_counterexample :
    500 < jsLines (buildSkillContent overlongSkill {})
    ∧ (generateSkillDocs overlongSkill {}).2 = []
    ∧ 500 < jsLines (generateSkillDocs overlongSkill {}).1 := by
  refine ⟨by decide, by decide, by decide⟩

/-- **C2** (amended): for every record whose rendered content exceeds 500
lines, the produced main document contains a pointer to (the name of) each
produced reference document, and at least one reference document is
produced exactly when the record has examples or a category detail longer
than 500 characters.  (The original claim's "main document ≤ 500 lines"
and unconditional "at least one reference document" are refuted by the
counterexample.) -/
theorem progressive_disclosure_amended (r : Skill) (src : SourceInfo)
    (h : 500 < jsLines (buildSkillContent r src)) :
    (∀ f ∈ (generateSkillDocs r src).2, f.1 <:+: (generateSkillDocs r src).1)
    ∧ ((generateSkillDocs r src).2 ≠ []
        ↔ (hasExamples r = true ∨ detailLong r = true)) := by
  have hgen : generateSkillDocs r src = applyProgressiveDisclosure r src := by
    simp only [generateSkillDocs]
    rw [if_pos h]
  rw [hgen]
  exact applyProgressiveDisclosure_spec r src

set_option maxRecDepth 200000 in
/-- Witness for C2 at an overlong record with an example: the produced
`EXAMPLES.md` reference is pointed to from the main document. -/
theorem progressive_disclosure_amended_witness :
    ("EXAMPLES.md".toList : Str) <:+: (generateSkillDocs overlongExampleSkill {}).1 :=
  (progressive_disclosure_amended overlongExampleSkill {} (by decide)).1
    ("EXAMPLES.md".toList, buildExamplesFile overlongExampleSkill) (by decide)

end PRSkills
